import Mathlib

/-!
Shallow embedding of the sidb entry store (src/main.go, the generation with a
shared connection handle, the composite UNIQUE(type, key) constraint and the
distinguished ErrNoDbConnection error).  Rows of the SQLite table `entries`
are modelled as a list in rowid order together with the AUTOINCREMENT
counter; each store operation is translated into a pure function over that
state.  The wall clock read by time.Now().UnixMilli() is passed in as an
explicit argument.
-/

namespace Sidb

/-- Errors surfaced by the store: the distinguished not-connected error
(ErrNoDbConnection in the source) and the engine error raised when a plain
INSERT violates the UNIQUE(type, key) constraint declared by Init. -/
inductive DbError where
  | noDbConnection
  | uniqueConstraint
deriving DecidableEq, Repr

/-- EntryInput from the source: the caller-facing write payload.  It carries
only a type, a key and a value; there is no timestamp field. -/
structure EntryInput where
  type : String
  key : String
  value : List Nat
deriving DecidableEq, Repr

/-- DbEntry from the source: one persisted row of the entries table. -/
structure DbEntry where
  id : Int
  timestamp : Int
  type : String
  key : String
  value : List Nat
deriving DecidableEq, Repr

/-- The entries table created by Init: rows in rowid order plus the
AUTOINCREMENT counter for the next id. -/
structure Table where
  rows : List DbEntry
  nextId : Int
deriving DecidableEq, Repr

/-- Row predicate for the composite identity: the row has the given type and
key.  This is the condition of the UNIQUE("type", "key") constraint. -/
def rowMatches (t k : String) (r : DbEntry) : Bool :=
  r.type == t && r.key == k

/-- Put body: INSERT OR REPLACE INTO entries(type, value, timestamp, key).
SQLite deletes any row conflicting on UNIQUE(type, key) and appends the new
row under a fresh rowid; LastInsertId returns that rowid. -/
def putRows (now : Int) (e : EntryInput) (tbl : Table) : Table × Int :=
  (⟨tbl.rows.filter (fun r => !(rowMatches e.type e.key r)) ++
      [⟨tbl.nextId, now, e.type, e.key, e.value⟩], tbl.nextId + 1⟩,
   tbl.nextId)

/-- Get body: SELECT ... WHERE id = ?, QueryRow taking the first row. -/
def getRows (id : Int) (tbl : Table) : Option DbEntry :=
  tbl.rows.find? (fun r => r.id == id)

/-- GetByKey body: SELECT ... WHERE key = ? AND type = ?, QueryRow taking the
first row. -/
def getByKeyRows (key entryType : String) (tbl : Table) : Option DbEntry :=
  tbl.rows.find? (fun r => r.key == key && r.type == entryType)

/-- Update body: UPDATE entries SET value = ? WHERE key = ? AND type = ?. -/
def updateRows (e : EntryInput) (tbl : Table) : Table :=
  ⟨tbl.rows.map (fun r =>
      if r.key == e.key && r.type == e.type then
        ⟨r.id, r.timestamp, r.type, r.key, e.value⟩
      else r),
   tbl.nextId⟩

/-- Delete body: DELETE FROM entries WHERE id = ?. -/
def deleteRows (id : Int) (tbl : Table) : Table :=
  ⟨tbl.rows.filter (fun r => !(r.id == id)), tbl.nextId⟩

/-- DeleteByKey body: DELETE FROM entries WHERE key = ? AND type = ?. -/
def deleteByKeyRows (key entryType : String) (tbl : Table) : Table :=
  ⟨tbl.rows.filter (fun r => !(r.key == key && r.type == entryType)), tbl.nextId⟩

/-- One plain INSERT INTO entries inside the bulk transaction: it fails with
the uniqueness-constraint error when a row with the same (type, key) is
already visible to the transaction, otherwise appends the new row. -/
def insertRow (now : Int) (e : EntryInput) (tbl : Table) : Except DbError Table :=
  if tbl.rows.any (fun r => rowMatches e.type e.key r) then
    Except.error DbError.uniqueConstraint
  else
    Except.ok ⟨tbl.rows ++ [⟨tbl.nextId, now, e.type, e.key, e.value⟩], tbl.nextId + 1⟩

/-- The loop of BulkPutForget: execute one INSERT per entry inside the open
transaction, stopping at the first failure.  The clock is read once per
entry (time.Now() is called in the loop); i counts the entries consumed. -/
def bulkInsertFrom (clock : Nat → Int) (i : Nat) (es : List EntryInput)
    (tbl : Table) : Except DbError Table :=
  match es with
  | [] => Except.ok tbl
  | e :: rest =>
    match insertRow (clock i) e tbl with
    | Except.error err => Except.error err
    | Except.ok tbl2 => bulkInsertFrom clock (i + 1) rest tbl2

/-- BulkPutForget body: run all inserts in one transaction; commit on success,
roll back to the original table on the first failure. -/
def bulkPutForgetRows (clock : Nat → Int) (es : List EntryInput)
    (tbl : Table) : Table × Except DbError Unit :=
  match bulkInsertFrom clock 0 es tbl with
  | Except.ok tbl2 => (tbl2, Except.ok ())
  | Except.error err => (tbl, Except.error err)

/-- Count body: SELECT COUNT(*) FROM entries. -/
def countRows (tbl : Table) : Int :=
  (tbl.rows.length : Int)

/-- QueryParams from the source.  The Go field named Type is called EntryType
here because Type is a reserved word in Lean; From, To and Limit are the
nullable pointer fields, Descending the plain bool. -/
structure QueryParams where
  From : Option Int
  To : Option Int
  EntryType : Option String
  Limit : Option Int
  Descending : Bool
deriving DecidableEq, Repr

/-- The WHERE clause built by Query: starting from 1=1 it conjoins type
equality, timestamp >= From and timestamp <= To, each only when the
corresponding field is non-nil. -/
def matchesWhere (p : QueryParams) (r : DbEntry) : Bool :=
  (match p.EntryType with | some t => r.type == t | none => true)
    && (match p.From with | some f => decide (f ≤ r.timestamp) | none => true)
    && (match p.To with | some u => decide (r.timestamp ≤ u) | none => true)

/-- Comparator for ORDER BY timestamp ASC. -/
def tsLe (a b : DbEntry) : Bool :=
  decide (a.timestamp ≤ b.timestamp)

/-- Comparator for ORDER BY timestamp DESC. -/
def tsGe (a b : DbEntry) : Bool :=
  decide (b.timestamp ≤ a.timestamp)

/-- Query body: filter by the dynamically built WHERE clause, ORDER BY
timestamp ascending or descending, then apply LIMIT when present (a negative
SQLite LIMIT means no bound). -/
def queryRows (p : QueryParams) (tbl : Table) : List DbEntry :=
  let filtered := tbl.rows.filter (matchesWhere p)
  let sorted := if p.Descending then filtered.mergeSort tsGe else filtered.mergeSort tsLe
  match p.Limit with
  | some l => if l < 0 then sorted else sorted.take l.toNat
  | none => sorted

/-- BulkLoad body: SELECT ... ORDER BY timestamp DESC LIMIT ?. -/
def bulkLoadRows (limit : Int) (tbl : Table) : List DbEntry :=
  let sorted := tbl.rows.mergeSort tsGe
  if limit < 0 then sorted else sorted.take limit.toNat

/-- Database from the source: the shared handle is live while connection is
some table and closed once it is none.  The Path field and the mutex are not
part of the sequential state. -/
structure Database where
  connection : Option Table
deriving DecidableEq, Repr

/-- Close: a nil connection is a no-op, otherwise the handle is released and
the connection field set to nil. -/
def Close (db : Database) : Database × Except DbError Unit :=
  match db.connection with
  | none => (db, Except.ok ())
  | some _ => (⟨none⟩, Except.ok ())

/-- Get: liveness check, then lookup by id. -/
def Get (id : Int) (db : Database) : Except DbError (Option DbEntry) :=
  match db.connection with
  | none => Except.error DbError.noDbConnection
  | some tbl => Except.ok (getRows id tbl)

/-- GetByKey: liveness check, then lookup by (key, type); an absent row is
the explicit not-found result ok none, never an error. -/
def GetByKey (key entryType : String) (db : Database) : Except DbError (Option DbEntry) :=
  match db.connection with
  | none => Except.error DbError.noDbConnection
  | some tbl => Except.ok (getByKeyRows key entryType tbl)

/-- Put: liveness check, then INSERT OR REPLACE, returning LastInsertId. -/
def Put (now : Int) (e : EntryInput) (db : Database) : Database × Except DbError Int :=
  match db.connection with
  | none => (db, Except.error DbError.noDbConnection)
  | some tbl => (⟨some (putRows now e tbl).1⟩, Except.ok (putRows now e tbl).2)

/-- Update: liveness check, then the value-only UPDATE; the row count is
discarded, so a zero-row update still returns success. -/
def Update (e : EntryInput) (db : Database) : Database × Except DbError Unit :=
  match db.connection with
  | none => (db, Except.error DbError.noDbConnection)
  | some tbl => (⟨some (updateRows e tbl)⟩, Except.ok ())

/-- Delete: liveness check, then DELETE by id. -/
def Delete (id : Int) (db : Database) : Database × Except DbError Unit :=
  match db.connection with
  | none => (db, Except.error DbError.noDbConnection)
  | some tbl => (⟨some (deleteRows id tbl)⟩, Except.ok ())

/-- DeleteByKey: liveness check, then DELETE by (key, type). -/
def DeleteByKey (key entryType : String) (db : Database) : Database × Except DbError Unit :=
  match db.connection with
  | none => (db, Except.error DbError.noDbConnection)
  | some tbl => (⟨some (deleteByKeyRows key entryType tbl)⟩, Except.ok ())

/-- BulkPutForget: liveness check, then the transactional batch insert. -/
def BulkPutForget (clock : Nat → Int) (es : List EntryInput) (db : Database) :
    Database × Except DbError Unit :=
  match db.connection with
  | none => (db, Except.error DbError.noDbConnection)
  | some tbl => (⟨some (bulkPutForgetRows clock es tbl).1⟩, (bulkPutForgetRows clock es tbl).2)

/-- BulkLoad: liveness check, then the bounded newest-first read. -/
def BulkLoad (limit : Int) (db : Database) : Except DbError (List DbEntry) :=
  match db.connection with
  | none => Except.error DbError.noDbConnection
  | some tbl => Except.ok (bulkLoadRows limit tbl)

/-- Count: liveness check, then the total row count. -/
def Count (db : Database) : Except DbError Int :=
  match db.connection with
  | none => Except.error DbError.noDbConnection
  | some tbl => Except.ok (countRows tbl)

/-- Query: liveness check, then the dynamically built filtered read. -/
def Query (p : QueryParams) (db : Database) : Except DbError (List DbEntry) :=
  match db.connection with
  | none => Except.error DbError.noDbConnection
  | some tbl => Except.ok (queryRows p tbl)

/-- Live entries stored under one (type, key). -/
def entriesFor (t k : String) (tbl : Table) : List DbEntry :=
  tbl.rows.filter (rowMatches t k)

/-- The uniqueness invariant guaranteed by UNIQUE("type", "key"): at most one
live entry per (type, key). -/
def AtMostOnePerKey (tbl : Table) : Prop :=
  ∀ t k, (entriesFor t k tbl).length ≤ 1

/-- Rows a successful bulk insert appends: the i-th entry of the batch
becomes a row with its type, key and value, the clock reading of its
iteration and the next consecutive rowid. -/
def plannedRows (clock : Nat → Int) (i : Nat) (startId : Int) :
    List EntryInput → List DbEntry
  | [] => []
  | e :: rest =>
    ⟨startId, clock i, e.type, e.key, e.value⟩ ::
      plannedRows clock (i + 1) (startId + 1) rest

/-- Formalisation of the claimed filter semantics, taken from the words of
the spec: type equality when a type is supplied, inclusive lower and upper
timestamp bounds when supplied, and an absent predicate leaving that
dimension unconstrained. -/
def MatchesClaim (p : QueryParams) (r : DbEntry) : Prop :=
  (∀ t, p.EntryType = some t → r.type = t) ∧
  (∀ f, p.From = some f → f ≤ r.timestamp) ∧
  (∀ u, p.To = some u → r.timestamp ≤ u)

/-- Timestamp stored for (e.type, e.key) right after a Put at clock value
now (0 if the row were somehow absent). -/
def putTimestamp (now : Int) (e : EntryInput) (tbl : Table) : Int :=
  match getByKeyRows e.key e.type (putRows now e tbl).1 with
  | some r => r.timestamp
  | none => 0

/-- Modelled from the spec: the sort dimension selector of the
final-generation query descriptor (sortField, one of timestamp or
sortingIndex).  The src/ QueryParams has no such field; only the tests of
this repository exercise it. -/
inductive SortField where
  | timestamp
  | sortingIndex
deriving DecidableEq, Repr

/-- Modelled from the spec: the sort direction selector (sortOrder,
ascending or descending) of the final-generation query descriptor, missing
from src/. -/
inductive SortOrder where
  | ascending
  | descending
deriving DecidableEq, Repr

/-- Modelled from the spec: the final-generation Entry, which additionally
carries an optional grouping string and an optional caller-assigned
sortingIndex; this generation is missing from src/. -/
structure SpecEntry where
  type : String
  key : String
  value : List Nat
  timestamp : Int
  grouping : Option String
  sortingIndex : Option Int
deriving DecidableEq, Repr

/-- Comparison of optional sort keys as the SQLite engine orders them: a
NULL sorts before every value in ascending order. -/
def optLe : Option Int → Option Int → Bool
  | none, _ => true
  | some _, none => false
  | some a, some b => decide (a ≤ b)

/-- Sort key selected by a sortField for one entry. -/
def sortKeyOf (f : SortField) (r : SpecEntry) : Option Int :=
  match f with
  | SortField.timestamp => some r.timestamp
  | SortField.sortingIndex => r.sortingIndex

/-- Modelled from the spec: the final-generation query read restricted to
the dimensions claim C8 exercises, namely an optional type filter and the
selectable sort field and order; this query variant is missing from src/. -/
def querySpec (t : Option String) (f : SortField) (o : SortOrder)
    (rows : List SpecEntry) : List SpecEntry :=
  let filtered := rows.filter (fun r => match t with | some ty => r.type == ty | none => true)
  match o with
  | SortOrder.ascending => filtered.mergeSort (fun a b => optLe (sortKeyOf f a) (sortKeyOf f b))
  | SortOrder.descending => filtered.mergeSort (fun a b => optLe (sortKeyOf f b) (sortKeyOf f a))

/-- Errors of the typed store: a codec failure from the caller-supplied
serialize or deserialize function, kept distinct from storage errors. -/
inductive StoreError where
  | codec (msg : String)
  | db (e : DbError)
deriving DecidableEq, Repr

/-- Modelled from the spec: the Typed Store overlay, built from a live Entry
Store, a fixed entry-type string and a pair of caller-supplied serialize and
deserialize functions; this layer is missing from src/ (only the tests of
this repository construct it). -/
structure Store (α : Type) where
  db : Database
  entryType : String
  serialize : α → Except String (List Nat)
  deserialize : List Nat → Except String α

/-- Modelled from the spec: the typed upsert serializes the value and, only
on success, performs the entry-store upsert of the bytes under the bound
entry type and the given key; a serialize failure aborts before any write. -/
def storeUpsert {α : Type} (now : Int) (key : String) (v : α) (s : Store α) :
    Store α × Except StoreError Unit :=
  match s.serialize v with
  | Except.error msg => (s, Except.error (StoreError.codec msg))
  | Except.ok bytes =>
    match Put now ⟨s.entryType, key, bytes⟩ s.db with
    | (db2, Except.ok _) => (⟨db2, s.entryType, s.serialize, s.deserialize⟩, Except.ok ())
    | (db2, Except.error err) =>
      (⟨db2, s.entryType, s.serialize, s.deserialize⟩, Except.error (StoreError.db err))

/-- Modelled from the spec: the typed get looks the key up under the bound
entry type and deserializes the stored bytes; absence is the explicit
not-found result, and a deserialize failure aborts the read. -/
def storeGet {α : Type} (key : String) (s : Store α) : Except StoreError (Option α) :=
  match GetByKey key s.entryType s.db with
  | Except.error err => Except.error (StoreError.db err)
  | Except.ok none => Except.ok none
  | Except.ok (some entry) =>
    match s.deserialize entry.value with
    | Except.error msg => Except.error (StoreError.codec msg)
    | Except.ok v => Except.ok (some v)

theorem rowMatches_eq_true {t k : String} {r : DbEntry} :
    rowMatches t k r = true ↔ r.type = t ∧ r.key = k := by
  simp [rowMatches]

theorem rowMatches_false_of_ne {t k : String} {e : EntryInput}
    (h : ¬(t = e.type ∧ k = e.key)) (r : DbEntry) (hr : rowMatches t k r = true) :
    rowMatches e.type e.key r = false := by
  cases hm : rowMatches e.type e.key r
  · rfl
  · rcases rowMatches_eq_true.mp hr with ⟨h1, h2⟩
    rcases rowMatches_eq_true.mp hm with ⟨h3, h4⟩
    exact absurd ⟨h1.symm.trans h3, h2.symm.trans h4⟩ h

theorem entriesFor_putRows (now : Int) (e : EntryInput) (tbl : Table) (t k : String) :
    entriesFor t k (putRows now e tbl).1 =
      if t = e.type ∧ k = e.key then [⟨tbl.nextId, now, e.type, e.key, e.value⟩]
      else entriesFor t k tbl := by
  unfold entriesFor putRows
  simp only [List.filter_append, List.filter_filter]
  by_cases h : t = e.type ∧ k = e.key
  · obtain ⟨ht, hk⟩ := h
    subst ht; subst hk
    rw [if_pos ⟨rfl, rfl⟩]
    have hz : List.filter (fun a => rowMatches e.type e.key a && !rowMatches e.type e.key a)
        tbl.rows = [] :=
      List.filter_eq_nil_iff.mpr (fun a _ => by simp [Bool.and_not_self])
    rw [hz]
    simp [rowMatches]
  · rw [if_neg h]
    have h1 : ∀ r ∈ tbl.rows,
        (rowMatches t k r && !rowMatches e.type e.key r) = rowMatches t k r := by
      intro r _
      cases hm : rowMatches t k r
      · simp
      · simp [rowMatches_false_of_ne h r hm]
    rw [List.filter_congr h1]
    have hnew : rowMatches t k (⟨tbl.nextId, now, e.type, e.key, e.value⟩ : DbEntry) = false := by
      cases hm : rowMatches t k (⟨tbl.nextId, now, e.type, e.key, e.value⟩ : DbEntry)
      · rfl
      · rcases rowMatches_eq_true.mp hm with ⟨h1', h2'⟩
        exact absurd ⟨h1'.symm, h2'.symm⟩ h
    simp [hnew]

theorem getByKeyRows_putRows (now : Int) (e : EntryInput) (tbl : Table) :
    getByKeyRows e.key e.type (putRows now e tbl).1 =
      some ⟨tbl.nextId, now, e.type, e.key, e.value⟩ := by
  unfold getByKeyRows putRows
  rw [List.find?_append]
  have h1 : List.find? (fun r => r.key == e.key && r.type == e.type)
      (List.filter (fun r => !rowMatches e.type e.key r) tbl.rows) = none := by
    rw [List.find?_eq_none]
    intro r hr
    rcases List.mem_filter.mp hr with ⟨_, hneg⟩
    intro hcon
    have : rowMatches e.type e.key r = true := by
      rw [Bool.and_eq_true] at hcon
      rcases hcon with ⟨hk, ht⟩
      exact rowMatches_eq_true.mpr ⟨beq_iff_eq.mp ht, beq_iff_eq.mp hk⟩
    simp [this] at hneg
  rw [h1]
  simp

theorem putTimestamp_eq_now (now : Int) (e : EntryInput) (tbl : Table) :
    putTimestamp now e tbl = now := by
  unfold putTimestamp
  rw [getByKeyRows_putRows]

theorem atMostOne_putRows (now : Int) (e : EntryInput) (tbl : Table)
    (h : AtMostOnePerKey tbl) : AtMostOnePerKey (putRows now e tbl).1 := by
  intro t k
  rw [entriesFor_putRows]
  by_cases hc : t = e.type ∧ k = e.key
  · rw [if_pos hc]; simp
  · rw [if_neg hc]; exact h t k

theorem length_filter_map_of_pres {α : Type} (p : α → Bool) (f : α → α) (l : List α)
    (h : ∀ a, p (f a) = p a) :
    (List.filter p (l.map f)).length = (List.filter p l).length := by
  induction l with
  | nil => rfl
  | cons a l ih =>
    simp only [List.map_cons, List.filter_cons, h a]
    cases p a <;> simp [ih]

theorem entriesFor_updateRows_length (e : EntryInput) (tbl : Table) (t k : String) :
    (entriesFor t k (updateRows e tbl)).length = (entriesFor t k tbl).length := by
  unfold entriesFor updateRows
  apply length_filter_map_of_pres
  intro r
  cases hm : (r.key == e.key && r.type == e.type) <;> simp [hm, rowMatches]

theorem atMostOne_updateRows (e : EntryInput) (tbl : Table)
    (h : AtMostOnePerKey tbl) : AtMostOnePerKey (updateRows e tbl) := by
  intro t k
  rw [entriesFor_updateRows_length]
  exact h t k

theorem atMostOne_filter (q : DbEntry → Bool) (tbl : Table)
    (h : AtMostOnePerKey tbl) : AtMostOnePerKey ⟨tbl.rows.filter q, tbl.nextId⟩ := by
  intro t k
  have hs : (entriesFor t k ⟨tbl.rows.filter q, tbl.nextId⟩).Sublist (entriesFor t k tbl) :=
    List.Sublist.filter _ (List.filter_sublist tbl.rows)
  exact le_trans hs.length_le (h t k)

theorem atMostOne_deleteRows (id : Int) (tbl : Table)
    (h : AtMostOnePerKey tbl) : AtMostOnePerKey (deleteRows id tbl) :=
  atMostOne_filter _ tbl h

theorem atMostOne_deleteByKeyRows (key entryType : String) (tbl : Table)
    (h : AtMostOnePerKey tbl) : AtMostOnePerKey (deleteByKeyRows key entryType tbl) :=
  atMostOne_filter _ tbl h

theorem insertRow_ok {now : Int} {e : EntryInput} {tbl tbl2 : Table}
    (h : insertRow now e tbl = Except.ok tbl2) :
    tbl2.rows = tbl.rows ++ [⟨tbl.nextId, now, e.type, e.key, e.value⟩] ∧
    tbl2.nextId = tbl.nextId + 1 ∧
    ∀ r ∈ tbl.rows, rowMatches e.type e.key r = false := by
  unfold insertRow at h
  split at h
  · simp at h
  · rename_i hc
    rw [Bool.not_eq_true] at hc
    have hall := List.any_eq_false.mp hc
    cases h
    refine ⟨rfl, rfl, fun r hr => ?_⟩
    have := hall r hr
    cases hx : rowMatches e.type e.key r
    · rfl
    · exact absurd hx this

theorem insertRow_error {now : Int} {e : EntryInput} {tbl : Table} {err : DbError}
    (h : insertRow now e tbl = Except.error err) : err = DbError.uniqueConstraint := by
  unfold insertRow at h
  split at h
  · cases h; rfl
  · simp at h

theorem bulkInsertFrom_ok {clock : Nat → Int} (es : List EntryInput) :
    ∀ {i : Nat} {tbl tbl2 : Table}, bulkInsertFrom clock i es tbl = Except.ok tbl2 →
      tbl2.rows = tbl.rows ++ plannedRows clock i tbl.nextId es := by
  induction es with
  | nil =>
    intro i tbl tbl2 h
    unfold bulkInsertFrom at h
    cases h
    simp [plannedRows]
  | cons e rest ih =>
    intro i tbl tbl2 h
    unfold bulkInsertFrom at h
    cases hins : insertRow (clock i) e tbl with
    | error err => rw [hins] at h; simp at h
    | ok tblm =>
      rw [hins] at h
      obtain ⟨hrows, hnext, _⟩ := insertRow_ok hins
      have h2 := ih h
      rw [h2, hrows, hnext]
      simp [plannedRows]

theorem atMostOne_insertRow {now : Int} {e : EntryInput} {tbl tbl2 : Table}
    (h : insertRow now e tbl = Except.ok tbl2) (hinv : AtMostOnePerKey tbl) :
    AtMostOnePerKey tbl2 := by
  obtain ⟨hrows, _, hnone⟩ := insertRow_ok h
  intro t k
  unfold entriesFor
  rw [hrows, List.filter_append, List.length_append]
  by_cases hc : t = e.type ∧ k = e.key
  · obtain ⟨ht, hk⟩ := hc
    subst ht; subst hk
    have h0 : tbl.rows.filter (rowMatches e.type e.key) = [] :=
      List.filter_eq_nil_iff.mpr (fun a ha => by simp [hnone a ha])
    rw [h0]
    have h1 : (List.filter (rowMatches e.type e.key)
        [(⟨tbl.nextId, now, e.type, e.key, e.value⟩ : DbEntry)]).length ≤ 1 :=
      le_trans (List.filter_sublist _).length_le (by simp)
    simpa using h1
  · have hnew : rowMatches t k (⟨tbl.nextId, now, e.type, e.key, e.value⟩ : DbEntry) = false := by
      cases hx : rowMatches t k (⟨tbl.nextId, now, e.type, e.key, e.value⟩ : DbEntry)
      · rfl
      · rcases rowMatches_eq_true.mp hx with ⟨h1', h2'⟩
        exact absurd ⟨h1'.symm, h2'.symm⟩ hc
    simp only [List.filter_cons, hnew]
    simpa using hinv t k

theorem atMostOne_bulkInsertFrom {clock : Nat → Int} (es : List EntryInput) :
    ∀ {i : Nat} {tbl tbl2 : Table}, bulkInsertFrom clock i es tbl = Except.ok tbl2 →
      AtMostOnePerKey tbl → AtMostOnePerKey tbl2 := by
  induction es with
  | nil =>
    intro i tbl tbl2 h hinv
    unfold bulkInsertFrom at h
    cases h
    exact hinv
  | cons e rest ih =>
    intro i tbl tbl2 h hinv
    unfold bulkInsertFrom at h
    cases hins : insertRow (clock i) e tbl with
    | error err => rw [hins] at h; simp at h
    | ok tblm =>
      rw [hins] at h
      exact ih h (atMostOne_insertRow hins hinv)

theorem atMostOne_bulkPutForgetRows (clock : Nat → Int) (es : List EntryInput)
    (tbl : Table) (h : AtMostOnePerKey tbl) :
    AtMostOnePerKey (bulkPutForgetRows clock es tbl).1 := by
  unfold bulkPutForgetRows
  cases hb : bulkInsertFrom clock 0 es tbl with
  | ok tbl2 => simpa using atMostOne_bulkInsertFrom es hb h
  | error err => simpa using h

theorem bulkInsertFrom_error {clock : Nat → Int} (es : List EntryInput) :
    ∀ {i : Nat} {tbl : Table} {err : DbError},
      bulkInsertFrom clock i es tbl = Except.error err →
      err = DbError.uniqueConstraint := by
  induction es with
  | nil =>
    intro i tbl err h
    unfold bulkInsertFrom at h
    simp at h
  | cons e rest ih =>
    intro i tbl err h
    unfold bulkInsertFrom at h
    cases hins : insertRow (clock i) e tbl with
    | error err2 =>
      rw [hins] at h
      cases h
      exact insertRow_error hins
    | ok tblm =>
      rw [hins] at h
      exact ih h

theorem bulkInsertFrom_conflict {clock : Nat → Int} (es : List EntryInput) :
    ∀ {e : EntryInput}, e ∈ es → ∀ {i : Nat} {tbl : Table} {r : DbEntry},
      r ∈ tbl.rows → rowMatches e.type e.key r = true →
      bulkInsertFrom clock i es tbl = Except.error DbError.uniqueConstraint := by
  induction es with
  | nil => intro e he; cases he
  | cons e0 rest ih =>
    intro e he i tbl r hr hm
    unfold bulkInsertFrom
    cases hins : insertRow (clock i) e0 tbl with
    | error err =>
      have h2 := insertRow_error hins
      subst h2
      rfl
    | ok tbl2 =>
      rcases List.mem_cons.mp he with rfl | he2
      · obtain ⟨_, _, hnone⟩ := insertRow_ok hins
        exact absurd hm (by simp [hnone r hr])
      · obtain ⟨hrows, _, _⟩ := insertRow_ok hins
        exact ih he2 (by rw [hrows]; exact List.mem_append_left _ hr) hm

theorem putRows_putRows_length (now1 now2 : Int) (e1 e2 : EntryInput) (tbl : Table)
    (hty : e1.type = e2.type) (hk : e1.key = e2.key) :
    (putRows now2 e2 (putRows now1 e1 tbl).1).1.rows.length =
      (putRows now1 e1 tbl).1.rows.length := by
  simp [putRows, List.filter_append, List.filter_filter, List.length_append,
    rowMatches, hty, hk, List.filter_cons, Bool.and_self]

/-- C1: for every store state and every pair of entries e1 and e2 sharing the
same (type, key), the single-entry write Put of e2 after e1 leaves exactly
one live entry under that (type, key), carrying the value of e2 and the
fresh clock reading of the second write; the second write replaces the prior
row rather than adding one (the row count does not grow), and the
at-most-one-entry-per-(type, key) invariant is preserved by every mutating
operation. -/
theorem put_upsert_replaces_and_preserves_invariant
    (tbl : Table) (now1 now2 : Int) (e1 e2 : EntryInput)
    (hty : e1.type = e2.type) (hk : e1.key = e2.key) :
    (Put now2 e2 (Put now1 e1 ⟨some tbl⟩).1).1.connection =
      some (putRows now2 e2 (putRows now1 e1 tbl).1).1 ∧
    entriesFor e2.type e2.key (putRows now2 e2 (putRows now1 e1 tbl).1).1 =
      [⟨(putRows now1 e1 tbl).1.nextId, now2, e2.type, e2.key, e2.value⟩] ∧
    (putRows now2 e2 (putRows now1 e1 tbl).1).1.rows.length =
      (putRows now1 e1 tbl).1.rows.length ∧
    (∀ now e t, AtMostOnePerKey t → AtMostOnePerKey (putRows now e t).1) ∧
    (∀ e t, AtMostOnePerKey t → AtMostOnePerKey (updateRows e t)) ∧
    (∀ i t, AtMostOnePerKey t → AtMostOnePerKey (deleteRows i t)) ∧
    (∀ k0 ty t, AtMostOnePerKey t → AtMostOnePerKey (deleteByKeyRows k0 ty t)) ∧
    (∀ clock es t, AtMostOnePerKey t → AtMostOnePerKey (bulkPutForgetRows clock es t).1) := by
  refine ⟨rfl, ?_, putRows_putRows_length now1 now2 e1 e2 tbl hty hk,
    atMostOne_putRows, atMostOne_updateRows, atMostOne_deleteRows,
    atMostOne_deleteByKeyRows, atMostOne_bulkPutForgetRows⟩
  rw [entriesFor_putRows, if_pos ⟨rfl, rfl⟩]

theorem put_upsert_replaces_witness :
    entriesFor "t" "k"
        (putRows 20 ⟨"t", "k", [2]⟩ (putRows 10 ⟨"t", "k", [1]⟩ ⟨[], 1⟩).1).1 =
      [⟨2, 20, "t", "k", [2]⟩] :=
  (put_upsert_replaces_and_preserves_invariant ⟨[], 1⟩ 10 20
    ⟨"t", "k", [1]⟩ ⟨"t", "k", [2]⟩ rfl rfl).2.1

/-- C2: Update replaces only the value of the rows matching (type, key),
leaving id, timestamp, type and key of every row unchanged, never changing
the row count or the id counter, and returning success; when no row matches
it is a silent no-op that leaves the entire table unchanged. -/
theorem update_changes_only_value (e : EntryInput) (tbl : Table) :
    Update e ⟨some tbl⟩ = (⟨some (updateRows e tbl)⟩, Except.ok ()) ∧
    (updateRows e tbl).nextId = tbl.nextId ∧
    (updateRows e tbl).rows.length = tbl.rows.length ∧
    (∀ (i : Nat) (r r' : DbEntry), tbl.rows[i]? = some r →
       (updateRows e tbl).rows[i]? = some r' →
       r'.id = r.id ∧ r'.timestamp = r.timestamp ∧ r'.type = r.type ∧ r'.key = r.key ∧
       r'.value = if r.key = e.key ∧ r.type = e.type then e.value else r.value) ∧
    ((∀ r ∈ tbl.rows, ¬(r.key = e.key ∧ r.type = e.type)) → updateRows e tbl = tbl) := by
  have hb : ∀ r : DbEntry,
      ((r.key == e.key && r.type == e.type) = true) ↔ (r.key = e.key ∧ r.type = e.type) := by
    intro r; simp
  refine ⟨rfl, rfl, List.length_map _ _, ?_, ?_⟩
  · intro i r r' h1 h2
    unfold updateRows at h2
    rw [List.getElem?_map, h1] at h2
    rw [Option.map_some'] at h2
    injection h2 with h2
    subst h2
    by_cases hc : r.key = e.key ∧ r.type = e.type
    · rw [if_pos (hb r |>.mpr hc)]
      simp [if_pos hc]
    · rw [if_neg (fun hx => hc ((hb r).mp hx))]
      simp [if_neg hc]
  · intro h
    cases tbl with
    | mk rows nid =>
      unfold updateRows
      simp only [Table.mk.injEq, and_true]
      have hmap : List.map
          (fun r : DbEntry => if r.key == e.key && r.type == e.type then
            (⟨r.id, r.timestamp, r.type, r.key, e.value⟩ : DbEntry) else r) rows
            = List.map (fun r => r) rows :=
        List.map_congr_left
          (fun r hr => by rw [if_neg (fun hx => (h r hr) ((hb r).mp hx))])
      rw [hmap]
      simp

theorem update_changes_only_value_witness :
    updateRows ⟨"t", "k", [9]⟩ ⟨[⟨1, 5, "u", "k2", [7]⟩], 2⟩ = ⟨[⟨1, 5, "u", "k2", [7]⟩], 2⟩ :=
  (update_changes_only_value ⟨"t", "k", [9]⟩ ⟨[⟨1, 5, "u", "k2", [7]⟩], 2⟩).2.2.2.2
    (fun r hr => by
      simp only [List.mem_singleton] at hr
      subst hr
      decide)

/-- C4: every operation requiring a live handle, invoked on a closed store,
performs no state change and fails with the distinguishable not-connected
error; Close always leaves the connection nil. -/
theorem closed_store_operations_fail (id now limit : Int) (key entryType : String)
    (e : EntryInput) (clock : Nat → Int) (es : List EntryInput) (p : QueryParams) :
    Get id ⟨none⟩ = Except.error DbError.noDbConnection ∧
    GetByKey key entryType ⟨none⟩ = Except.error DbError.noDbConnection ∧
    Put now e ⟨none⟩ = (⟨none⟩, Except.error DbError.noDbConnection) ∧
    Update e ⟨none⟩ = (⟨none⟩, Except.error DbError.noDbConnection) ∧
    Delete id ⟨none⟩ = (⟨none⟩, Except.error DbError.noDbConnection) ∧
    DeleteByKey key entryType ⟨none⟩ = (⟨none⟩, Except.error DbError.noDbConnection) ∧
    BulkPutForget clock es ⟨none⟩ = (⟨none⟩, Except.error DbError.noDbConnection) ∧
    BulkLoad limit ⟨none⟩ = Except.error DbError.noDbConnection ∧
    Count ⟨none⟩ = Except.error DbError.noDbConnection ∧
    Query p ⟨none⟩ = Except.error DbError.noDbConnection ∧
    (∀ db : Database, ((Close db).1).connection = none) ∧
    DbError.noDbConnection ≠ DbError.uniqueConstraint := by
  refine ⟨rfl, rfl, rfl, rfl, rfl, rfl, rfl, rfl, rfl, rfl, ?_, by decide⟩
  intro db
  cases db with
  | mk c => cases c <;> rfl

/-- C5: looking up a (type, key) with no live entry returns the explicit
not-found result ok none rather than an error; in particular a lookup right
after DeleteByKey of the same (type, key) yields not-found, and deleting a
non-existent (type, key) still succeeds. -/
theorem lookup_absent_not_found (key entryType : String) (tbl : Table) :
    ((∀ r ∈ tbl.rows, ¬(r.key = key ∧ r.type = entryType)) →
      GetByKey key entryType ⟨some tbl⟩ = Except.ok none) ∧
    DeleteByKey key entryType ⟨some tbl⟩ =
      (⟨some (deleteByKeyRows key entryType tbl)⟩, Except.ok ()) ∧
    GetByKey key entryType (DeleteByKey key entryType ⟨some tbl⟩).1 = Except.ok none := by
  refine ⟨?_, rfl, ?_⟩
  · intro h
    show Except.ok (getByKeyRows key entryType tbl) = Except.ok none
    unfold getByKeyRows
    rw [List.find?_eq_none.mpr ?_]
    intro r hr
    simp only [Bool.and_eq_true, beq_iff_eq]
    exact fun hx => (h r hr) hx
  · show Except.ok (getByKeyRows key entryType (deleteByKeyRows key entryType tbl)) =
      Except.ok none
    unfold getByKeyRows deleteByKeyRows
    rw [List.find?_eq_none.mpr ?_]
    intro r hr
    rcases List.mem_filter.mp hr with ⟨_, hneg⟩
    intro hx
    simp [hx] at hneg

theorem lookup_absent_not_found_witness :
    GetByKey "k" "t" ⟨some ⟨[], 1⟩⟩ = Except.ok none ∧
    GetByKey "k" "t" (DeleteByKey "k" "t" ⟨some ⟨[⟨1, 5, "t", "k", [7]⟩], 2⟩⟩).1 =
      Except.ok none :=
  ⟨(lookup_absent_not_found "k" "t" ⟨[], 1⟩).1 (fun r hr => by simp at hr),
   (lookup_absent_not_found "k" "t" ⟨[⟨1, 5, "t", "k", [7]⟩], 2⟩).2.2⟩

theorem plannedRows_length (clock : Nat → Int) :
    ∀ (es : List EntryInput) (i : Nat) (startId : Int),
      (plannedRows clock i startId es).length = es.length := by
  intro es
  induction es with
  | nil => intro i s; rfl
  | cons e rest ih => intro i s; simp [plannedRows, ih]

/-- C3: the bulk write BulkPutForget is atomic: either every entry of the
batch is appended to the table, one row per entry with that entry's type,
key and value, and the count grows by the batch size, or the call returns an
error and the table is exactly the one before the call, so no read observes
a partial batch. -/
theorem bulkPutForget_atomic (clock : Nat → Int) (es : List EntryInput) (tbl : Table) :
    BulkPutForget clock es ⟨some tbl⟩ =
      (⟨some (bulkPutForgetRows clock es tbl).1⟩, (bulkPutForgetRows clock es tbl).2) ∧
    ((bulkPutForgetRows clock es tbl).2 = Except.ok () ∧
       (bulkPutForgetRows clock es tbl).1.rows =
         tbl.rows ++ plannedRows clock 0 tbl.nextId es ∧
       countRows (bulkPutForgetRows clock es tbl).1 = countRows tbl + es.length ∨
     ∃ err, (bulkPutForgetRows clock es tbl).2 = Except.error err ∧
       (bulkPutForgetRows clock es tbl).1 = tbl) := by
  refine ⟨rfl, ?_⟩
  unfold bulkPutForgetRows
  cases hb : bulkInsertFrom clock 0 es tbl with
  | ok tbl2 =>
    left
    have hrows := bulkInsertFrom_ok es hb
    refine ⟨rfl, hrows, ?_⟩
    simp only [countRows, hrows, List.length_append, plannedRows_length]
    omega
  | error err =>
    right
    exact ⟨err, rfl, rfl⟩

theorem matchesWhere_iff (p : QueryParams) (r : DbEntry) :
    matchesWhere p r = true ↔ MatchesClaim p r := by
  unfold matchesWhere MatchesClaim
  cases hT : p.EntryType <;> cases hF : p.From <;> cases hU : p.To <;> simp [and_assoc]

/-- C6: Query returns exactly the entries satisfying the conjunction of the
supplied predicates, namely type equality when a type is supplied and the
inclusive timestamp bounds when supplied, with every absent predicate
leaving that dimension unconstrained: every returned entry satisfies the
conjunction, and when no LIMIT is supplied an entry is returned precisely
when it is a stored row satisfying the conjunction. -/
theorem query_conjunctive_filters (p : QueryParams) (tbl : Table) (r : DbEntry) :
    Query p ⟨some tbl⟩ = Except.ok (queryRows p tbl) ∧
    (r ∈ queryRows p tbl → r ∈ tbl.rows ∧ MatchesClaim p r) ∧
    (p.Limit = none → (r ∈ queryRows p tbl ↔ r ∈ tbl.rows ∧ MatchesClaim p r)) := by
  have hmem : ∀ x ∈ (if p.Descending then (tbl.rows.filter (matchesWhere p)).mergeSort tsGe
        else (tbl.rows.filter (matchesWhere p)).mergeSort tsLe),
      x ∈ tbl.rows ∧ MatchesClaim p x := by
    intro x hx
    have hx2 : x ∈ tbl.rows.filter (matchesWhere p) := by
      cases hD : p.Descending <;> rw [hD] at hx <;> simpa using List.mem_mergeSort.mp hx
    rcases List.mem_filter.mp hx2 with ⟨h1, h2⟩
    exact ⟨h1, (matchesWhere_iff p x).mp h2⟩
  have hmem2 : ∀ x, x ∈ tbl.rows ∧ MatchesClaim p x →
      x ∈ (if p.Descending then (tbl.rows.filter (matchesWhere p)).mergeSort tsGe
        else (tbl.rows.filter (matchesWhere p)).mergeSort tsLe) := by
    intro x hx
    have hx2 : x ∈ tbl.rows.filter (matchesWhere p) :=
      List.mem_filter.mpr ⟨hx.1, (matchesWhere_iff p x).mpr hx.2⟩
    cases hD : p.Descending
    · rw [if_neg (by simp)]
      exact List.mem_mergeSort.mpr hx2
    · rw [if_pos rfl]
      exact List.mem_mergeSort.mpr hx2
  refine ⟨rfl, ?_, ?_⟩
  · intro hr
    apply hmem
    unfold queryRows at hr
    cases hL : p.Limit with
    | none => rw [hL] at hr; simpa using hr
    | some l =>
      rw [hL] at hr
      simp only at hr
      by_cases hneg : l < 0
      · rw [if_pos hneg] at hr; exact hr
      · rw [if_neg hneg] at hr; exact List.mem_of_mem_take hr
  · intro hL
    unfold queryRows
    rw [hL]
    constructor
    · intro hr; exact hmem r (by simpa using hr)
    · intro hr; simpa using hmem2 r hr

theorem query_conjunctive_filters_witness :
    (⟨1, 5, "t", "k", [7]⟩ : DbEntry) ∈
      queryRows ⟨some 5, some 5, some "t", none, false⟩ ⟨[⟨1, 5, "t", "k", [7]⟩], 2⟩ := by
  have h := (query_conjunctive_filters ⟨some 5, some 5, some "t", none, false⟩
      ⟨[⟨1, 5, "t", "k", [7]⟩], 2⟩ ⟨1, 5, "t", "k", [7]⟩).2.2 rfl
  refine h.mpr ⟨by simp, ?_, ?_, ?_⟩
  · intro t ht
    cases ht
    rfl
  · intro f hf
    cases hf
    exact le_refl 5
  · intro u hu
    cases hu
    exact le_refl 5

/-- C7 counterexample: the claim that a caller-supplied timestamp is
preserved by Put is false against the code: whatever optional timestamp one
reads off an EntryInput, Put stores the clock reading of the write, so no
input with a supplied timestamp can have it preserved; witnessed concretely
on the empty table. -/
theorem put_caller_timestamp_counterexample :
    ¬ ∃ supplied : EntryInput → Option Int,
        (∃ e : EntryInput, (supplied e).isSome = true) ∧
        (∀ (now : Int) (e : EntryInput) (tbl : Table),
          putTimestamp now e tbl = (supplied e).getD now) := by
  rintro ⟨supplied, ⟨e, he⟩, hall⟩
  rcases Option.isSome_iff_exists.mp he with ⟨t0, ht0⟩
  have h1 := hall (t0 + 1) e ⟨[], 1⟩
  rw [putTimestamp_eq_now, ht0] at h1
  simp only [Option.getD_some] at h1
  omega

/-- C7 amended: Put always assigns the current clock reading as the stored
timestamp of the written (type, key); EntryInput carries no timestamp field,
so a caller cannot supply one and no timestamp is ever preserved from the
input. -/
theorem put_assigns_clock_timestamp (now : Int) (e : EntryInput) (tbl : Table) :
    Put now e ⟨some tbl⟩ = (⟨some (putRows now e tbl).1⟩, Except.ok tbl.nextId) ∧
    GetByKey e.key e.type (Put now e ⟨some tbl⟩).1 =
      Except.ok (some ⟨tbl.nextId, now, e.type, e.key, e.value⟩) ∧
    putTimestamp now e tbl = now := by
  refine ⟨rfl, ?_, putTimestamp_eq_now now e tbl⟩
  show Except.ok (getByKeyRows e.key e.type (putRows now e tbl).1) = _
  rw [getByKeyRows_putRows]

/-- C10: the bulk write has no replace semantics: when some entry of the
batch collides with an existing (type, key) of the store, BulkPutForget
returns the uniqueness-constraint error and the transaction rollback leaves
the store exactly as it was, the existing row neither replaced nor
duplicated. -/
theorem bulkPutForget_rejects_existing_key (clock : Nat → Int) (es : List EntryInput)
    (tbl : Table) (e : EntryInput) (r : DbEntry) (hes : e ∈ es) (hr : r ∈ tbl.rows)
    (hm : r.type = e.type ∧ r.key = e.key) :
    BulkPutForget clock es ⟨some tbl⟩ =
      (⟨some tbl⟩, Except.error DbError.uniqueConstraint) := by
  have hconf := @bulkInsertFrom_conflict clock es e hes 0 tbl r hr (rowMatches_eq_true.mpr hm)
  simp only [BulkPutForget, bulkPutForgetRows, hconf]

theorem bulkPutForget_rejects_existing_key_witness :
    BulkPutForget (fun _ => 9) [⟨"t", "k", [2]⟩] ⟨some ⟨[⟨1, 5, "t", "k", [7]⟩], 2⟩⟩ =
      (⟨some ⟨[⟨1, 5, "t", "k", [7]⟩], 2⟩⟩, Except.error DbError.uniqueConstraint) :=
  bulkPutForget_rejects_existing_key (fun _ => 9) [⟨"t", "k", [2]⟩]
    ⟨[⟨1, 5, "t", "k", [7]⟩], 2⟩ ⟨"t", "k", [2]⟩ ⟨1, 5, "t", "k", [7]⟩
    (List.mem_singleton.mpr rfl) (List.mem_singleton.mpr rfl) ⟨rfl, rfl⟩

theorem optLe_trans (a b c : Option Int) (h1 : optLe a b = true) (h2 : optLe b c = true) :
    optLe a c = true := by
  cases a <;> cases b <;> cases c <;> simp [optLe] at * <;> omega

theorem optLe_total (a b : Option Int) : (optLe a b || optLe b a) = true := by
  cases a <;> cases b <;> simp [optLe] <;> omega

/-- C8 (spec-modelled): a query over one type that selects sortingIndex as
the sort field returns a permutation of that type's entries sorted by
sortingIndex: non-decreasing for ascending order, non-increasing for
descending order, so sortingIndex values such as 2, 1, 3 come back as
1, 2, 3 ascending and 3, 2, 1 descending. -/
theorem querySpec_sorts_by_sortingIndex (t : String) (rows : List SpecEntry) :
    ((querySpec (some t) SortField.sortingIndex SortOrder.ascending rows).Perm
        (rows.filter (fun r => r.type == t)) ∧
      (querySpec (some t) SortField.sortingIndex SortOrder.ascending rows).Pairwise
        (fun a b => optLe a.sortingIndex b.sortingIndex = true)) ∧
    ((querySpec (some t) SortField.sortingIndex SortOrder.descending rows).Perm
        (rows.filter (fun r => r.type == t)) ∧
      (querySpec (some t) SortField.sortingIndex SortOrder.descending rows).Pairwise
        (fun a b => optLe b.sortingIndex a.sortingIndex = true)) := by
  refine ⟨⟨List.mergeSort_perm _ _, ?_⟩, ⟨List.mergeSort_perm _ _, ?_⟩⟩
  · exact @List.sorted_mergeSort SpecEntry
      (fun a b => optLe (sortKeyOf SortField.sortingIndex a) (sortKeyOf SortField.sortingIndex b))
      (fun a b c h1 h2 => optLe_trans _ _ _ h1 h2)
      (fun a b => optLe_total _ _)
      (rows.filter (fun r => r.type == t))
  · exact @List.sorted_mergeSort SpecEntry
      (fun a b => optLe (sortKeyOf SortField.sortingIndex b) (sortKeyOf SortField.sortingIndex a))
      (fun a b c h1 h2 => optLe_trans _ _ _ h2 h1)
      (fun a b => optLe_total _ _)
      (rows.filter (fun r => r.type == t))

/-- C9 (spec-modelled): for a Typed Store whose caller-supplied serialize
and deserialize functions form an inverse pair at a value, the typed upsert
of that value under a key followed by the typed get of the same key returns
the original value. -/
theorem store_roundtrip {α : Type} (tbl : Table) (ty key : String)
    (ser : α → Except String (List Nat)) (de : List Nat → Except String α)
    (v : α) (bytes : List Nat) (now : Int)
    (hser : ser v = Except.ok bytes) (hde : de bytes = Except.ok v) :
    storeGet key (storeUpsert now key v ⟨⟨some tbl⟩, ty, ser, de⟩).1 =
      Except.ok (some v) := by
  have hget : getByKeyRows key ty (putRows now ⟨ty, key, bytes⟩ tbl).1 =
      some ⟨tbl.nextId, now, ty, key, bytes⟩ :=
    getByKeyRows_putRows now ⟨ty, key, bytes⟩ tbl
  simp only [storeUpsert, Put, hser]
  simp only [storeGet, GetByKey, hget, hde]

theorem store_roundtrip_witness :
    storeGet "k" (storeUpsert 5 "k" (7 : Nat)
        ⟨⟨some ⟨[], 1⟩⟩, "t", fun n => Except.ok [n], fun l =>
          match l with | [n] => Except.ok n | _ => Except.error ("bad")⟩).1 =
      Except.ok (some 7) :=
  store_roundtrip ⟨[], 1⟩ "t" "k" (fun n => Except.ok [n])
    (fun l => match l with | [n] => Except.ok n | _ => Except.error ("bad"))
    7 [7] 5 rfl rfl

theorem bulkPutForget_atomic_witness :
    BulkPutForget (fun _ => 9) [⟨"t", "k", [2]⟩] ⟨some ⟨[], 1⟩⟩ =
      (⟨some (bulkPutForgetRows (fun _ => 9) [⟨"t", "k", [2]⟩] ⟨[], 1⟩).1⟩,
       (bulkPutForgetRows (fun _ => 9) [⟨"t", "k", [2]⟩] ⟨[], 1⟩).2) :=
  (bulkPutForget_atomic (fun _ => 9) [⟨"t", "k", [2]⟩] ⟨[], 1⟩).1

theorem closed_store_operations_fail_witness :
    Get 0 ⟨none⟩ = Except.error DbError.noDbConnection :=
  (closed_store_operations_fail 0 0 0 "k" "t" ⟨"t", "k", []⟩ (fun _ => 0) []
    ⟨none, none, none, none, false⟩).1

theorem put_assigns_clock_timestamp_witness :
    putTimestamp 5 ⟨"t", "k", [7]⟩ ⟨[], 1⟩ = 5 :=
  (put_assigns_clock_timestamp 5 ⟨"t", "k", [7]⟩ ⟨[], 1⟩).2.2

theorem querySpec_sorts_by_sortingIndex_witness :
    (querySpec (some "t") SortField.sortingIndex SortOrder.ascending
        [⟨"t", "k1", [], 0, none, some 2⟩, ⟨"t", "k2", [], 0, none, some 1⟩,
         ⟨"t", "k3", [], 0, none, some 3⟩]).Pairwise
      (fun a b => optLe a.sortingIndex b.sortingIndex = true) :=
  (querySpec_sorts_by_sortingIndex "t"
    [⟨"t", "k1", [], 0, none, some 2⟩, ⟨"t", "k2", [], 0, none, some 1⟩,
     ⟨"t", "k3", [], 0, none, some 3⟩]).1.2

end Sidb
